import Mathlib

/-!
Verification of the concurrent batch-processing engine of
`audio-probe-go-ffmpeg` (`cmd/audio-probe-ffmpeg/main.go`).

The pure parts of the program (the post-JSON-parsing part of
`analyzeFileWithFFProbe`, the concurrency clamp of `processFiles`, the
success/failure counting, and the two output renderers) are embedded as
Lean functions.  The concurrent scheduler inside `processFiles`
(goroutine per file, counting-semaphore admission, index writes into a
pre-sized result slice, atomic progress counter) is embedded as a
small-step state machine: a task is `pending` before it acquires a
semaphore slot, `running` while it holds the slot and invokes ffprobe,
and `done` once its result has been written, the progress counter
incremented and the slot released.  Go machine integers are modelled as
unbounded `Int` (none of the verified paths can overflow a 64-bit int),
`float64` values as `ℚ`, and Go maps as association lists.
-/

namespace AudioProbe

/-- `AudioInfo` from main.go.  The wall-clock field `ProcessingTimeMs` is
environment-dependent (it measures elapsed real time) and is omitted from
the model; no verified claim mentions it. -/
structure AudioInfo where
  filePath : String
  fileSize : Int
  durationSeconds : ℚ
  bitRate : Int
  sampleRate : Int
  channels : Int
  codecName : String
  codecLongName : String
  formatName : String
  formatLongName : String
  hasVideo : Bool
  metadata : List (String × String)
deriving DecidableEq

/-- `FFProbeFormat` from main.go; `Tags` (a Go map) is modelled as an
association list with distinct keys supplied by the JSON decoder. -/
structure FFProbeFormat where
  filename : String
  formatName : String
  formatLongName : String
  duration : String
  size : String
  bitRate : String
  tags : List (String × String)
deriving DecidableEq

/-- `FFProbeStream` from main.go. -/
structure FFProbeStream where
  codecName : String
  codecLongName : String
  codecType : String
  sampleRate : String
  channels : Int
  bitRate : String
deriving DecidableEq

/-- `FFProbeOutput` from main.go. -/
structure FFProbeOutput where
  format : FFProbeFormat
  streams : List FFProbeStream
deriving DecidableEq

/-- `Result` from main.go: `Info *AudioInfo` and `Error error`.  A nil
pointer / nil error is `none`; an error value is modelled by its message. -/
structure Result where
  info : Option AudioInfo
  error : Option String
deriving DecidableEq

/-- The Go zero value `Result{}` (both pointers nil), the content of an
unwritten slot of the slice `make([]Result, len(files))`. -/
def Result.zero : Result := ⟨none, none⟩

/-! ### Models of the Go library functions used by `analyzeFileWithFFProbe` -/

/-- Decimal digit value of a character, `none` for a non-digit. -/
def digitVal? (c : Char) : Option Nat :=
  if 48 ≤ c.toNat ∧ c.toNat ≤ 57 then some (c.toNat - 48) else none

/-- Accumulates the value of a digit string; fails on any non-digit. -/
def digitsValAux : List Char → Nat → Option Nat
  | [], acc => some acc
  | c :: cs, acc =>
    match digitVal? c with
    | none => none
    | some d => digitsValAux cs (acc * 10 + d)

/-- Value of a non-empty all-digit string, `none` otherwise. -/
def digitsVal? : List Char → Option Nat
  | [] => none
  | c :: cs => digitsValAux (c :: cs) 0

def int64Max : Int := 2 ^ 63 - 1

def int64Min : Int := -(2 ^ 63)

/-- Models the value returned by Go `strconv.ParseInt(s, 10, 64)` with the
error discarded, as main.go does (`v, _ := strconv.ParseInt(...)`): an
optional sign followed by decimal digits; 0 on a syntax error; the value
saturates at the int64 bounds on a range error (Go returns the clamped
value together with `ErrRange`).  `strconv.Atoi` on a 64-bit platform is
the same computation. -/
def parseIntGo (s : String) : Int :=
  match s.toList with
  | [] => 0
  | '+' :: ds =>
    match digitsVal? ds with
    | none => 0
    | some n => if (n : Int) > int64Max then int64Max else (n : Int)
  | '-' :: ds =>
    match digitsVal? ds with
    | none => 0
    | some n => if (n : Int) > 2 ^ 63 then int64Min else -(n : Int)
  | ds =>
    match digitsVal? ds with
    | none => 0
    | some n => if (n : Int) > int64Max then int64Max else (n : Int)

/-- Value of `intpart[.fracpart]` as a rational. -/
def parseDecimal (cs : List Char) : ℚ :=
  let ip := cs.takeWhile (fun c => c ≠ '.')
  match digitsVal? ip, cs.dropWhile (fun c => c ≠ '.') with
  | some n, [] => (n : ℚ)
  | some n, '.' :: frac =>
    match digitsVal? frac with
    | some f => (n : ℚ) + (f : ℚ) / (10 : ℚ) ^ frac.length
    | none => 0
  | _, _ => 0

/-- Simplified model of Go `strconv.ParseFloat(s, 64)` with the error
discarded: plain decimal forms `[sign]digits[.digits]` (the shape ffprobe
emits for durations), evaluated exactly over `ℚ`; 0 otherwise.  Exponent,
hex-float and inf/nan forms are out of the modelled fragment, as is
rounding to binary float64. -/
def parseFloatGo (s : String) : ℚ :=
  match s.toList with
  | '-' :: cs => -(parseDecimal cs)
  | '+' :: cs => parseDecimal cs
  | cs => parseDecimal cs

/-- ASCII fragment of Go `strings.ToLower` on one character. -/
def goToLowerChar (c : Char) : Char :=
  if 65 ≤ c.toNat ∧ c.toNat ≤ 90 then Char.ofNat (c.toNat + 32) else c

/-- ASCII fragment of Go `strings.ToLower`. -/
def goToLower (s : String) : String :=
  String.mk (s.toList.map goToLowerChar)

/-- Models Go `filepath.Base` (Unix separators): "." for the empty path,
trailing slashes stripped, then the part after the last slash, "/" when
nothing remains. -/
def goBase (s : String) : String :=
  if s = "" then "." else
  let trimmed := (s.toList.reverse.dropWhile (fun c => c = '/')).reverse
  let base := (trimmed.reverse.takeWhile (fun c => c ≠ '/')).reverse
  if base = [] then "/" else String.mk base

/-- Scans the reversed character list of a path for the final dot of its
last element; `acc` holds the characters already passed, in forward
order. -/
def goExtAux : List Char → List Char → List Char
  | [], _ => []
  | c :: rest, acc =>
    if c = '/' then []
    else if c = '.' then c :: acc
    else goExtAux rest (c :: acc)

/-- Models Go `filepath.Ext`: the suffix starting at the final dot of the
last path element, "" when there is none. -/
def goExt (s : String) : String :=
  String.mk (goExtAux s.toList.reverse [])

/-- Models Go `strings.TrimSuffix`. -/
def goTrimSuffix (s suffix : String) : String :=
  if suffix.toList.isSuffixOf s.toList then
    String.mk (s.toList.take (s.toList.length - suffix.toList.length))
  else s

/-! ### Association-list model of Go maps -/

/-- Go map assignment `m[k] = v`: replaces the binding of `k` when
present, otherwise adds one. -/
def mapSet (m : List (String × String)) (k v : String) : List (String × String) :=
  if m.any (fun p => p.1 = k) then
    m.map (fun p => if p.1 = k then (k, v) else p)
  else m ++ [(k, v)]

/-- Go map lookup `m[k]` (the `v, ok` form). -/
def mapGet? (m : List (String × String)) (k : String) : Option String :=
  (m.find? (fun p => p.1 = k)).map (fun p => p.2)

/-- The metadata-building loop of `analyzeFileWithFFProbe` (main.go lines
349-352): every format tag is re-inserted under its lowercased key.  Go
map iteration order is unspecified; the verified properties below hold
for every iteration order because they hold for every list. -/
def buildMetadata (tags : List (String × String)) : List (String × String) :=
  tags.foldl (fun m p => mapSet m (goToLower p.1) p.2) []

/-- The metadata construction of `analyzeFileWithFFProbe` (main.go lines
349-352 and 371-381): tags under lowercased keys, then the "title"
default `d` (the base name without extension), "artist" defaulting to
"Unknown Artist" and "album" defaulting to "Unknown Album", each only
when the key is absent.  In Go `metadata` and `info.Metadata` alias the
same map, so each check sees the earlier inserts; the sequential lets
reproduce that. -/
def metadataWithDefaults (tags : List (String × String)) (d : String) :
    List (String × String) :=
  let metadata0 := buildMetadata tags
  let metadata1 :=
    if (mapGet? metadata0 "title").isSome then metadata0
    else mapSet metadata0 "title" d
  let metadata2 :=
    if (mapGet? metadata1 "artist").isSome then metadata1
    else mapSet metadata1 "artist" "Unknown Artist"
  if (mapGet? metadata2 "album").isSome then metadata2
  else mapSet metadata2 "album" "Unknown Album"

/-! ### The pure part of `analyzeFileWithFFProbe` -/

/-- The stream-selection loop of `analyzeFileWithFFProbe` (main.go lines
325-331): the first stream whose codec type is "audio".  (Go 1.22+
per-iteration loop variables, per the go1.24 build in the Dockerfile, so
`audioStream = &stream` captures the current iteration's stream.) -/
def findAudioStream : List FFProbeStream → Option FFProbeStream
  | [] => none
  | st :: rest => if st.codecType = "audio" then some st else findAudioStream rest

/-- `analyzeFileWithFFProbe` (main.go lines 293-384) from the point where
the ffprobe JSON has been parsed.  `filePath` and `fileSize` are the
os.Stat inputs; the process-spawning, stat and JSON-decoding failure
paths are environmental and outside the model, which is exactly the
adapter contract the scheduler consumes. -/
def analyzeFileWithFFProbe (filePath : String) (fileSize : Int)
    (probeData : FFProbeOutput) : Except String AudioInfo :=
  match findAudioStream probeData.streams with
  | none => .error "音声ストリームが見つかりません"
  | some audioStream =>
    let hasVideo := probeData.streams.any (fun st => st.codecType == "video")
    let duration := parseFloatGo probeData.format.duration
    let bitRate0 := parseIntGo probeData.format.bitRate
    let sampleRate := parseIntGo audioStream.sampleRate
    let streamBitRate := parseIntGo audioStream.bitRate
    let bitRate := if bitRate0 = 0 ∧ streamBitRate > 0 then streamBitRate else bitRate0
    let metadata := metadataWithDefaults probeData.format.tags
      (goTrimSuffix (goBase filePath) (goExt (goBase filePath)))
    .ok
      { filePath := filePath
        fileSize := fileSize
        durationSeconds := duration
        bitRate := bitRate
        sampleRate := sampleRate
        channels := audioStream.channels
        codecName := audioStream.codecName
        codecLongName := audioStream.codecLongName
        formatName := probeData.format.formatName
        formatLongName := probeData.format.formatLongName
        hasVideo := hasVideo
        metadata := metadata }

/-! ### The concurrency clamp of `processFiles` (main.go lines 210-215) -/

/-- Outcome of the clamp: the effective concurrency and whether the
warning was logged. -/
structure ClampResult where
  effective : Int
  warned : Bool
deriving DecidableEq

/-- main.go lines 210-215: `cpuLimit := runtime.NumCPU() * 12; if
maxConcurrency > cpuLimit { warn; maxConcurrency = cpuLimit }`. -/
def clampConcurrency (numCPU maxConcurrency : Int) : ClampResult :=
  let cpuLimit := numCPU * 12
  if maxConcurrency > cpuLimit then ⟨cpuLimit, true⟩
  else ⟨maxConcurrency, false⟩

/-! ### Success/failure counting and the output renderers -/

/-- The counting loop at the end of `processFiles` (main.go lines
277-288): successes are entries with a nil `Error`, failures the rest. -/
def countSuccessFail (rs : List Result) : Nat × Nat :=
  rs.foldl
    (fun acc r =>
      match r.error with
      | none => (acc.1 + 1, acc.2)
      | some _ => (acc.1, acc.2 + 1))
    (0, 0)

/-- The success filter shared by `outputJSON` (main.go line 416) and the
statistics loop of `outputText` (main.go line 435): entries with nil
`Error` and non-nil `Info`, in input order, mapped to their `AudioInfo`. -/
def successEntries (results : List Result) : List AudioInfo :=
  results.filterMap (fun r => if r.error = none then r.info else none)

/-- `outputJSON` (main.go lines 412-424): the serialized document is the
list of `AudioInfo` records of the successful entries; nothing else is
emitted. -/
def outputJSON (results : List Result) : List AudioInfo :=
  successEntries results

/-- The statistics accumulated by `outputText` (main.go lines 429-440):
total duration, total size and success count over entries with nil
`Error` and non-nil `Info`. -/
structure TextStats where
  totalDuration : ℚ
  totalSize : Int
  successCount : Nat
deriving DecidableEq

/-- The statistics loop of `outputText` (main.go lines 434-440). -/
def textStats (results : List Result) : TextStats :=
  results.foldl
    (fun acc r =>
      match r.error, r.info with
      | none, some info =>
        ⟨acc.totalDuration + info.durationSeconds,
         acc.totalSize + info.fileSize,
         acc.successCount + 1⟩
      | _, _ => acc)
    ⟨0, 0, 0⟩

/-- One printed line of `outputText`, carrying the raw values each
`Fprintf` call renders (the numeric pretty-printers `formatBytes`,
`formatDuration`, `formatBitRate`, `formatBool` are presentation-only and
not modelled; the processing-time line is omitted with
`ProcessingTimeMs`). -/
inductive Line where
  | header
  | summary (success fail : Nat)
  | totalDurationLine (d : ℚ)
  | totalSizeLine (b : Int)
  | errorLine (msg : String)
  | fileHeader (path : String)
  | sizeLine (b : Int)
  | durationLine (d : ℚ)
  | bitRateLine (r : Int)
  | sampleRateLine (n : Int)
  | channelsLine (n : Int)
  | codecLine (c cl : String)
  | formatLine (f fl : String)
  | hasVideoLine (b : Bool)
  | metadataHeader
  | metadataEntry (k v : String)
deriving DecidableEq

/-- The per-success detail block of `outputText` (main.go lines 453-472). -/
def renderInfoLines (info : AudioInfo) : List Line :=
  [Line.fileHeader info.filePath,
   Line.sizeLine info.fileSize,
   Line.durationLine info.durationSeconds,
   Line.bitRateLine info.bitRate,
   Line.sampleRateLine info.sampleRate,
   Line.channelsLine info.channels,
   Line.codecLine info.codecName info.codecLongName,
   Line.formatLine info.formatName info.formatLongName,
   Line.hasVideoLine info.hasVideo]
  ++ (if info.metadata.length > 0 then
        Line.metadataHeader ::
          info.metadata.filterMap
            (fun p => if p.2 ≠ "" then some (Line.metadataEntry p.1 p.2) else none)
      else [])

/-- The per-result branch of the loop of `outputText` (main.go lines
447-473): a failed entry prints only its error line and `continue`s.  An
entry with nil `Error` and nil `Info` would make the Go code dereference
a nil pointer; `analyzeFileWithFFProbe` never produces one, and the model
renders nothing for it. -/
def renderResultLines (r : Result) : List Line :=
  match r.error with
  | some e => [Line.errorLine e]
  | none =>
    match r.info with
    | some info => renderInfoLines info
    | none => []

/-- `outputText` (main.go lines 426-476) as the sequence of printed
lines. -/
def renderText (results : List Result) : List Line :=
  let st := textStats results
  Line.header
    :: Line.summary st.successCount (results.length - st.successCount)
    :: Line.totalDurationLine st.totalDuration
    :: Line.totalSizeLine st.totalSize
    :: (results.flatMap renderResultLines)

/-! ### The scheduler of `processFiles` (main.go lines 222-271)

`processFiles` allocates `results := make([]Result, len(files))`, then for
each index `i` spawns a goroutine that (1) acquires a slot of the
counting semaphore `make(chan struct{}, maxConcurrency)`, (2) runs
`analyzeFileWithFFProbe` for its own file, (3) writes `results[index]`,
(4) atomically increments `processed`, and (5) releases its slot;
`wg.Wait()` returns only when every goroutine is done.  The state machine
below has one transition for the semaphore acquisition and one for the
write/increment/release sequence; interleaving of the goroutines is the
nondeterminism of the step relation.  The `writes` ghost component counts
the index writes performed on each slot.  The adapter function stands for
the outcome of `analyzeFileWithFFProbe` on the i-th file, as the pair
`(Info, Error)` stored into the slot. -/

/-- Lifecycle of one goroutine of `processFiles`: `pending` before the
semaphore receive on line 259, `running` while holding the slot and
invoking ffprobe, `done` after lines 262-265 have run and the slot is
released. -/
inductive Phase where
  | pending
  | running
  | done
deriving DecidableEq

/-- The shared mutable state of one `processFiles` run: the per-goroutine
phases, the pre-sized result slice, a ghost per-slot write counter, and
the atomic `processed` counter. -/
structure SchedState where
  phases : List Phase
  results : List (Option Result)
  writes : List Nat
  processed : Nat
deriving DecidableEq

/-- State at line 254, before any goroutine has acquired the semaphore:
`make([]Result, n)` is allocated (all slots unwritten), no write has
happened, `processed = 0`. -/
def initState (n : Nat) : SchedState :=
  ⟨List.replicate n Phase.pending, List.replicate n none, List.replicate n 0, 0⟩

/-- Whether a goroutine currently holds a semaphore slot. -/
def isRunning : Phase → Bool
  | Phase.running => true
  | _ => false

/-- Whether a goroutine has finished. -/
def isDone : Phase → Bool
  | Phase.done => true
  | _ => false

/-- Number of goroutines currently holding a semaphore slot (in-flight
ffprobe invocations). -/
def runningCount (s : SchedState) : Nat :=
  s.phases.countP isRunning

/-- Number of finished goroutines. -/
def doneCount (s : SchedState) : Nat :=
  s.phases.countP isDone

/-- One scheduling step of `processFiles` with semaphore capacity `N` and
per-item adapter outcome `adapter`:

* `start i` — goroutine `i` completes `semaphore <- struct{}{}` (line
  259); possible only while fewer than `N` slots are held.
* `finish i` — goroutine `i` stores `Result{Info: info, Error: err}` into
  `results[i]` (line 263), increments `processed` (line 265) and releases
  its slot (deferred receive, line 260). -/
inductive Step (adapter : Nat → Result) (N : Nat) : SchedState → SchedState → Prop where
  | start (s : SchedState) (i : Nat)
      (hp : s.phases[i]? = some Phase.pending)
      (hroom : runningCount s < N) :
      Step adapter N s
        { s with phases := s.phases.set i Phase.running }
  | finish (s : SchedState) (i : Nat)
      (hp : s.phases[i]? = some Phase.running) :
      Step adapter N s
        { phases := s.phases.set i Phase.done
          results := s.results.set i (some (adapter i))
          writes := s.writes.set i ((s.writes[i]?.getD 0) + 1)
          processed := s.processed + 1 }

/-- The states a run of `processFiles` over `n` files can reach. -/
def Reachable (adapter : Nat → Result) (N n : Nat) (s : SchedState) : Prop :=
  Relation.ReflTransGen (Step adapter N) (initState n) s

/-- The barrier `wg.Wait()` has been passed: every goroutine is done. -/
def AllDone (n : Nat) (s : SchedState) : Prop :=
  ∀ i, i < n → s.phases[i]? = some Phase.done

/-- The `[]Result` slice as the rest of `processFiles` sees it after the
barrier: an unwritten slot holds the Go zero value. -/
def finalResults (s : SchedState) : List Result :=
  s.results.map (fun o => o.getD Result.zero)

/-! ### Concrete witness data: a two-file run with concurrency 1 whose
second probe fails -/

/-- A concrete successful probe outcome. -/
def infoW : AudioInfo :=
  { filePath := "a.mp3"
    fileSize := 4096
    durationSeconds := 3
    bitRate := 128000
    sampleRate := 44100
    channels := 2
    codecName := "mp3"
    codecLongName := "MP3 (MPEG audio layer 3)"
    formatName := "mp3"
    formatLongName := "MP2/3 (MPEG audio layer 2/3)"
    hasVideo := false
    metadata := [("title", "a"), ("artist", "Unknown Artist"), ("album", "Unknown Album")] }

/-- Adapter outcomes for the witness run: item 0 succeeds, item 1 fails. -/
def adapterW : Nat → Result := fun i =>
  if i = 1 then ⟨none, some "ffprobe実行エラー: exit status 1"⟩ else ⟨some infoW, none⟩

/-- Final state of the witness run (both items done, in order 0 then 1). -/
def sFinalW : SchedState :=
  { phases := [Phase.done, Phase.done]
    results := [some (adapterW 0), some (adapterW 1)]
    writes := [1, 1]
    processed := 2 }

/-- Intermediate witness state: goroutine 0 holds the semaphore slot. -/
def sW1 : SchedState :=
  { phases := [Phase.running, Phase.pending]
    results := [none, none]
    writes := [0, 0]
    processed := 0 }

/-- Intermediate witness state: goroutine 0 finished. -/
def sW2 : SchedState :=
  { phases := [Phase.done, Phase.pending]
    results := [some (adapterW 0), none]
    writes := [1, 0]
    processed := 1 }

/-- Intermediate witness state: goroutine 1 holds the semaphore slot. -/
def sW3 : SchedState :=
  { phases := [Phase.done, Phase.running]
    results := [some (adapterW 0), none]
    writes := [1, 0]
    processed := 1 }

/-- A concrete failed `Result`, as `analyzeFileWithFFProbe` returns when
the ffprobe child process exits nonzero: nil `Info`, non-nil `Error`. -/
def failResultW : Result := ⟨none, some "ffprobe実行エラー: exit status 2"⟩

/-- A concrete audio stream record for the `analyzeFileWithFFProbe`
witnesses. -/
def streamW : FFProbeStream :=
  { codecName := "flac"
    codecLongName := "FLAC (Free Lossless Audio Codec)"
    codecType := "audio"
    sampleRate := "44100"
    channels := 2
    bitRate := "128000" }

/-- A concrete ffprobe document whose format-level bit rate parses to 0
and that carries no tags. -/
def probeW : FFProbeOutput :=
  { format :=
      { filename := "a.flac"
        formatName := "flac"
        formatLongName := "raw FLAC"
        duration := "3.5"
        size := "4096"
        bitRate := "0"
        tags := [] }
    streams := [streamW] }

/-- The `AudioInfo` that `analyzeFileWithFFProbe` produces for `probeW`. -/
def infoW2 : AudioInfo :=
  { filePath := "a.flac"
    fileSize := 4096
    durationSeconds := parseFloatGo "3.5"
    bitRate := 128000
    sampleRate := 44100
    channels := 2
    codecName := "flac"
    codecLongName := "FLAC (Free Lossless Audio Codec)"
    formatName := "flac"
    formatLongName := "raw FLAC"
    hasVideo := false
    metadata := [("title", "a"), ("artist", "Unknown Artist"), ("album", "Unknown Album")] }

/-- Every key of the map is fixed under lowercasing. -/
def KeysFixed (m : List (String × String)) : Prop :=
  ∀ p ∈ m, goToLower p.1 = p.1

/-- The inductive invariant of one `processFiles` run: the three shared
lists keep the input length; a done slot holds exactly its adapter value
and has been written once; a slot whose goroutine has not finished is
still unwritten; the atomic counter equals the number of finished
goroutines. -/
structure SchedInv (adapter : Nat → Result) (n : Nat) (s : SchedState) : Prop where
  phases_len : s.phases.length = n
  results_len : s.results.length = n
  writes_len : s.writes.length = n
  slot_done : ∀ i : Nat, s.phases[i]? = some Phase.done →
    s.results[i]? = some (some (adapter i)) ∧ s.writes[i]? = some 1
  slot_not_done : ∀ (i : Nat) (x : Phase), s.phases[i]? = some x → x ≠ Phase.done →
    s.results[i]? = some none ∧ s.writes[i]? = some 0
  processed_eq : s.processed = doneCount s

/-! ## Scheduler invariant lemmas -/

/-- Replacing the element at an in-bounds index changes `countP` by the
difference between the contributions of the old and new values. -/
theorem countP_set_add {α : Type} (p : α → Bool) (l : List α) (i : Nat) (x a : α)
    (hx : l[i]? = some x) :
    (l.set i a).countP p + (if p x then 1 else 0)
      = l.countP p + (if p a then 1 else 0) := by
  induction l generalizing i with
  | nil => simp at hx
  | cons b tl ih =>
    cases i with
    | zero =>
      simp only [List.getElem?_cons_zero, Option.some.injEq] at hx
      subst hx
      simp only [List.set_cons_zero, List.countP_cons]
      omega
    | succ j =>
      simp only [List.getElem?_cons_succ] at hx
      have h2 := ih j hx
      simp only [List.set_cons_succ, List.countP_cons]
      omega

/-- The invariant holds in the initial state. -/
theorem schedInv_init (adapter : Nat → Result) (n : Nat) :
    SchedInv adapter n (initState n) := by
  refine ⟨by simp [initState], by simp [initState], by simp [initState], ?_, ?_, ?_⟩
  · intro i hi
    simp only [initState, List.getElem?_replicate] at hi
    split at hi <;> simp_all
  · intro i x hi hx
    simp only [initState, List.getElem?_replicate] at hi ⊢
    split at hi
    · next hlt => simp [hlt]
    · exact absurd hi (by simp)
  · show (0 : Nat) = doneCount (initState n)
    rw [doneCount]
    symm
    apply List.countP_eq_zero.mpr
    intro a ha
    rw [List.eq_of_mem_replicate ha]
    decide

/-- The invariant is preserved by every scheduling step. -/
theorem schedInv_step {adapter : Nat → Result} {N n : Nat} {s t : SchedState}
    (hinv : SchedInv adapter n s) (hstep : Step adapter N s t) :
    SchedInv adapter n t := by
  obtain ⟨hplen, hrlen, hwlen, hdone, hnd, hproc⟩ := hinv
  cases hstep with
  | start i hp hroom =>
    have hilt : i < s.phases.length := (List.getElem?_eq_some.mp hp).1
    refine ⟨by simpa using hplen, hrlen, hwlen, ?_, ?_, ?_⟩
    · intro j hj
      by_cases hij : i = j
      · subst hij
        simp [List.getElem?_set, hilt] at hj
      · rw [List.getElem?_set] at hj
        rw [if_neg hij] at hj
        exact hdone j hj
    · intro j x hj hx
      by_cases hij : i = j
      · subst hij
        exact hnd i Phase.pending hp (by simp)
      · rw [List.getElem?_set] at hj
        rw [if_neg hij] at hj
        exact hnd j x hj hx
    · have h2 := countP_set_add isDone s.phases i
        Phase.pending Phase.running hp
      rw [show (if isDone Phase.pending = true then 1 else 0) = 0 from rfl,
        show (if isDone Phase.running = true then 1 else 0) = 0 from rfl] at h2
      simp only [doneCount] at hproc ⊢
      omega
  | finish i hp =>
    have hilt : i < s.phases.length := (List.getElem?_eq_some.mp hp).1
    have hirlt : i < s.results.length := by omega
    have hiwlt : i < s.writes.length := by omega
    have hw0 := hnd i Phase.running hp (by simp)
    refine ⟨by simpa using hplen, by simpa using hrlen, by simpa using hwlen, ?_, ?_, ?_⟩
    · intro j hj
      by_cases hij : i = j
      · subst hij
        constructor
        · rw [List.getElem?_set, if_pos rfl, if_pos hirlt]
        · rw [List.getElem?_set, if_pos rfl, if_pos hiwlt]
          rw [hw0.2]
          rfl
      · rw [List.getElem?_set, if_neg hij] at hj
        have h3 := hdone j hj
        constructor
        · rw [List.getElem?_set, if_neg hij]
          exact h3.1
        · rw [List.getElem?_set, if_neg hij]
          exact h3.2
    · intro j x hj hx
      by_cases hij : i = j
      · subst hij
        rw [List.getElem?_set, if_pos rfl, if_pos hilt] at hj
        injection hj with hj
        exact absurd hj.symm hx
      · rw [List.getElem?_set, if_neg hij] at hj
        have h3 := hnd j x hj hx
        constructor
        · rw [List.getElem?_set, if_neg hij]
          exact h3.1
        · rw [List.getElem?_set, if_neg hij]
          exact h3.2
    · have h2 := countP_set_add isDone s.phases i
        Phase.running Phase.done hp
      rw [show (if isDone Phase.running = true then 1 else 0) = 0 from rfl,
        show (if isDone Phase.done = true then 1 else 0) = 1 from rfl] at h2
      simp only [doneCount] at hproc ⊢
      omega

/-- Every reachable state satisfies the invariant. -/
theorem reachable_inv {adapter : Nat → Result} {N n : Nat} {s : SchedState}
    (h : Reachable adapter N n s) : SchedInv adapter n s := by
  induction h with
  | refl => exact schedInv_init adapter n
  | tail hab hbc ih => exact schedInv_step ih hbc

/-- In every reachable state at most `N` goroutines hold a semaphore
slot. -/
theorem reachable_runningCount_le {adapter : Nat → Result} {N n : Nat} {s : SchedState}
    (h : Reachable adapter N n s) : runningCount s ≤ N := by
  induction h with
  | refl =>
    show List.countP isRunning (List.replicate n Phase.pending) ≤ N
    have h0 : List.countP isRunning (List.replicate n Phase.pending) = 0 := by
      apply List.countP_eq_zero.mpr
      intro a ha
      rw [List.eq_of_mem_replicate ha]
      decide
    omega
  | @tail u v hab hstep ih =>
    cases hstep with
    | start i hp hroom =>
      have h2 := countP_set_add isRunning u.phases i
        Phase.pending Phase.running hp
      rw [show (if isRunning Phase.pending = true then 1 else 0) = 0 from rfl,
        show (if isRunning Phase.running = true then 1 else 0) = 1 from rfl] at h2
      simp only [runningCount] at hroom ⊢
      omega
    | finish i hp =>
      have h2 := countP_set_add isRunning u.phases i
        Phase.running Phase.done hp
      rw [show (if isRunning Phase.running = true then 1 else 0) = 1 from rfl,
        show (if isRunning Phase.done = true then 1 else 0) = 0 from rfl] at h2
      simp only [runningCount] at ih ⊢
      omega

/-- After the barrier the number of done goroutines is the input size. -/
theorem allDone_doneCount {n : Nat} {s : SchedState} (hlen : s.phases.length = n)
    (hdone : AllDone n s) : doneCount s = n := by
  rw [doneCount, ← hlen]
  apply List.countP_eq_length.mpr
  intro a ha
  obtain ⟨j, hj⟩ := List.mem_iff_getElem?.mp ha
  have hjlt : j < s.phases.length := (List.getElem?_eq_some.mp hj).1
  have h2 := hdone j (by omega)
  rw [h2] at hj
  injection hj with hj
  subst hj
  rfl

/-- After the barrier the result slice is exactly the per-index adapter
outcomes. -/
theorem allDone_results_eq {adapter : Nat → Result} {n : Nat} {s : SchedState}
    (hinv : SchedInv adapter n s) (hdone : AllDone n s) :
    s.results = (List.range n).map (fun i => some (adapter i)) := by
  apply List.ext_getElem?
  intro j
  by_cases hj : j < n
  · rw [(hinv.slot_done j (hdone j hj)).1]
    rw [List.getElem?_map, List.getElem?_range hj]
    rfl
  · have h1 : s.results.length ≤ j := by rw [hinv.results_len]; omega
    have h2 : ((List.range n).map (fun i => some (adapter i))).length ≤ j := by
      simp only [List.length_map, List.length_range]
      omega
    rw [List.getElem?_eq_none h1, List.getElem?_eq_none h2]

/-- The witness run is a genuine execution of the step relation. -/
theorem reachW : Reachable adapterW 1 2 sFinalW := by
  have h1 : Step adapterW 1 (initState 2) sW1 :=
    Step.start (initState 2) 0 rfl (by decide)
  have h2 : Step adapterW 1 sW1 sW2 := Step.finish sW1 0 rfl
  have h3 : Step adapterW 1 sW2 sW3 :=
    Step.start sW2 1 rfl (by decide)
  have h4 : Step adapterW 1 sW3 sFinalW := Step.finish sW3 1 rfl
  exact Relation.ReflTransGen.tail
    (Relation.ReflTransGen.tail
      (Relation.ReflTransGen.tail
        (Relation.ReflTransGen.tail Relation.ReflTransGen.refl h1) h2) h3) h4

/-! ## Counting lemmas for the success/failure tallies -/

/-- The tally loop of `processFiles`, with a general accumulator. -/
theorem countSuccessFail_foldl (rs : List Result) (a b : Nat) :
    rs.foldl
      (fun acc r =>
        match r.error with
        | none => (acc.1 + 1, acc.2)
        | some _ => (acc.1, acc.2 + 1))
      (a, b)
      = (a + rs.countP (fun r => r.error.isNone),
         b + rs.countP (fun r => r.error.isSome)) := by
  induction rs generalizing a b with
  | nil => simp
  | cons r tl ih =>
    obtain ⟨rinfo, rerror⟩ := r
    rw [List.foldl_cons]
    cases rerror with
    | none =>
      show List.foldl _ (a + 1, b) tl = _
      rw [ih]
      simp [List.countP_cons]
      omega
    | some e =>
      show List.foldl _ (a, b + 1) tl = _
      rw [ih]
      simp [List.countP_cons]
      omega

/-- `countSuccessFail` tallies nil-error and non-nil-error entries. -/
theorem countSuccessFail_eq (rs : List Result) :
    countSuccessFail rs
      = (rs.countP (fun r => r.error.isNone), rs.countP (fun r => r.error.isSome)) := by
  have h := countSuccessFail_foldl rs 0 0
  simpa [countSuccessFail] using h

/-- Every entry is either a success or a failure. -/
theorem count_error_split (rs : List Result) :
    rs.countP (fun r => r.error.isNone) + rs.countP (fun r => r.error.isSome)
      = rs.length := by
  induction rs with
  | nil => simp
  | cons r tl ih =>
    obtain ⟨rinfo, rerror⟩ := r
    cases rerror <;> simp [List.countP_cons] <;> omega

/-- The statistics loop of `outputText`, with a general accumulator. -/
theorem textStats_foldl (rs : List Result) (d : ℚ) (b : Int) (c : Nat) :
    rs.foldl
      (fun acc r =>
        match r.error, r.info with
        | none, some info =>
          ⟨acc.totalDuration + info.durationSeconds,
           acc.totalSize + info.fileSize,
           acc.successCount + 1⟩
        | _, _ => acc)
      (⟨d, b, c⟩ : TextStats)
      = (⟨d + ((successEntries rs).map (fun i => i.durationSeconds)).sum,
          b + ((successEntries rs).map (fun i => i.fileSize)).sum,
          c + (successEntries rs).length⟩ : TextStats) := by
  induction rs generalizing d b c with
  | nil => simp [successEntries]
  | cons r tl ih =>
    obtain ⟨rinfo, rerror⟩ := r
    rw [List.foldl_cons]
    cases rerror with
    | some e =>
      show List.foldl _ (⟨d, b, c⟩ : TextStats) tl = _
      rw [ih]
      simp [successEntries, List.filterMap_cons]
    | none =>
      cases rinfo with
      | none =>
        show List.foldl _ (⟨d, b, c⟩ : TextStats) tl = _
        rw [ih]
        simp [successEntries, List.filterMap_cons]
      | some info =>
        show List.foldl _
          (⟨d + info.durationSeconds, b + info.fileSize, c + 1⟩ : TextStats) tl = _
        rw [ih]
        simp only [successEntries, List.filterMap_cons, List.map_cons, List.sum_cons,
          List.length_cons, TextStats.mk.injEq]
        refine ⟨by simp [successEntries]; ring, by simp [successEntries]; ring,
          by simp [successEntries]; omega⟩

/-- `textStats` in closed form: sums and count over the successful
entries only. -/
theorem textStats_eq (results : List Result) :
    textStats results
      = (⟨((successEntries results).map (fun i => i.durationSeconds)).sum,
          ((successEntries results).map (fun i => i.fileSize)).sum,
          (successEntries results).length⟩ : TextStats) := by
  have h := textStats_foldl results 0 0 0
  simpa [textStats] using h

/-- Under the adapter contract (nil error implies non-nil info) the
number of successful entries is the number of nil-error entries. -/
theorem successEntries_length (rs : List Result)
    (hwf : ∀ r ∈ rs, r.error = none → r.info.isSome) :
    (successEntries rs).length = rs.countP (fun r => r.error.isNone) := by
  induction rs with
  | nil => simp [successEntries]
  | cons r tl ih =>
    have htl : ∀ x ∈ tl, x.error = none → x.info.isSome :=
      fun x hx => hwf x (List.mem_cons_of_mem _ hx)
    have ih2 := ih htl
    obtain ⟨rinfo, rerror⟩ := r
    cases rerror with
    | none =>
      have hinfo : (Result.mk rinfo none).info.isSome :=
        hwf _ (List.mem_cons_self _ _) rfl
      cases rinfo with
      | none => simp at hinfo
      | some info =>
        simp only [successEntries, List.filterMap_cons, List.countP_cons] at ih2 ⊢
        simp [ih2]
    | some e =>
      simp only [successEntries, List.filterMap_cons, List.countP_cons] at ih2 ⊢
      simp [ih2]

/-- Failing entries contribute nothing to the success extraction. -/
theorem successEntries_filter (rs : List Result) :
    successEntries (rs.filter (fun r => r.error.isNone)) = successEntries rs := by
  induction rs with
  | nil => rfl
  | cons r tl ih =>
    obtain ⟨rinfo, rerror⟩ := r
    cases rerror with
    | none =>
      cases rinfo with
      | none =>
        simp only [successEntries, List.filter_cons, List.filterMap_cons] at ih ⊢
        simpa using ih
      | some info =>
        simp only [successEntries, List.filter_cons, List.filterMap_cons] at ih ⊢
        simpa using ih
    | some e =>
      simp only [successEntries, List.filter_cons, List.filterMap_cons] at ih ⊢
      simpa using ih

/-! ## Lowercasing and association-list lemmas -/

/-- ASCII lowering is idempotent on characters. -/
theorem goToLowerChar_fixed (c : Char) :
    goToLowerChar (goToLowerChar c) = goToLowerChar c := by
  by_cases h : 65 ≤ c.toNat ∧ c.toNat ≤ 90
  · have hv : (c.toNat + 32).isValidChar := Or.inl (by omega)
    have htn : (Char.ofNat (c.toNat + 32)).toNat = c.toNat + 32 := by
      unfold Char.ofNat
      rw [dif_pos hv]
      rfl
    have hcond : ¬(65 ≤ (Char.ofNat (c.toNat + 32)).toNat
        ∧ (Char.ofNat (c.toNat + 32)).toNat ≤ 90) := by
      rw [htn]
      omega
    have hin : goToLowerChar c = Char.ofNat (c.toNat + 32) := by
      rw [goToLowerChar, if_pos h]
    rw [hin, goToLowerChar, if_neg hcond]
  · have hin : goToLowerChar c = c := by
      rw [goToLowerChar, if_neg h]
    rw [hin, hin]

/-- ASCII lowering is idempotent on strings. -/
theorem goToLower_fixed (s : String) : goToLower (goToLower s) = goToLower s := by
  have hmk : ∀ l : List Char, (String.mk l).toList = l := fun l => rfl
  simp only [goToLower, hmk, List.map_map]
  congr 1
  apply List.map_congr_left
  intro a _
  simp only [Function.comp_apply]
  exact goToLowerChar_fixed a

/-- Key search skips an entry with a different key. -/
theorem find?_key_cons_ne (q : String × String) (l : List (String × String))
    (k2 : String) (h : q.1 ≠ k2) :
    List.find? (fun p => p.1 = k2) (q :: l) = List.find? (fun p => p.1 = k2) l := by
  apply List.find?_cons_of_neg
  simp [h]

/-- Key search stops at an entry with the sought key. -/
theorem find?_key_cons_eq (q : String × String) (l : List (String × String))
    (k2 : String) (h : q.1 = k2) :
    List.find? (fun p => p.1 = k2) (q :: l) = some q := by
  apply List.find?_cons_of_pos
  simp [h]

/-- Lookup after the map-branch of `mapSet`, other key. -/
theorem mapGet?_update_ne (m : List (String × String)) (k v k2 : String)
    (hne : k2 ≠ k) :
    mapGet? (m.map (fun p => if p.1 = k then (k, v) else p)) k2 = mapGet? m k2 := by
  induction m with
  | nil => rfl
  | cons p ps ih =>
    by_cases hpk : p.1 = k
    · rw [List.map_cons, if_pos hpk]
      rw [mapGet?, mapGet?]
      rw [find?_key_cons_ne (k, v) _ k2 (Ne.symm hne)]
      rw [find?_key_cons_ne p _ k2 (fun hh => hne ((hpk.symm.trans hh).symm))]
      exact ih
    · rw [List.map_cons, if_neg hpk]
      by_cases hpk2 : p.1 = k2
      · rw [mapGet?, mapGet?]
        rw [find?_key_cons_eq p _ k2 hpk2, find?_key_cons_eq p _ k2 hpk2]
      · rw [mapGet?, mapGet?]
        rw [find?_key_cons_ne p _ k2 hpk2, find?_key_cons_ne p _ k2 hpk2]
        exact ih

/-- Lookup after the append-branch of `mapSet`, other key. -/
theorem mapGet?_append_ne (m : List (String × String)) (k v k2 : String)
    (hne : k2 ≠ k) :
    mapGet? (m ++ [(k, v)]) k2 = mapGet? m k2 := by
  induction m with
  | nil =>
    show mapGet? ((k, v) :: []) k2 = mapGet? [] k2
    rw [mapGet?]
    rw [find?_key_cons_ne (k, v) _ k2 (Ne.symm hne)]
    rfl
  | cons p ps ih =>
    show mapGet? (p :: (ps ++ [(k, v)])) k2 = mapGet? (p :: ps) k2
    by_cases hpk2 : p.1 = k2
    · rw [mapGet?, mapGet?]
      rw [find?_key_cons_eq p _ k2 hpk2, find?_key_cons_eq p _ k2 hpk2]
    · rw [mapGet?, mapGet?]
      rw [find?_key_cons_ne p _ k2 hpk2, find?_key_cons_ne p _ k2 hpk2]
      exact ih

/-- Lookup after the map-branch of `mapSet`, written key. -/
theorem mapGet?_update_self (m : List (String × String)) (k v : String)
    (hany : ∃ q ∈ m, q.1 = k) :
    mapGet? (m.map (fun p => if p.1 = k then (k, v) else p)) k = some v := by
  induction m with
  | nil =>
    obtain ⟨q, hq, _⟩ := hany
    exact absurd hq (List.not_mem_nil q)
  | cons p ps ih =>
    by_cases hpk : p.1 = k
    · rw [List.map_cons, if_pos hpk, mapGet?]
      rw [find?_key_cons_eq (k, v) _ k rfl]
      rfl
    · rw [List.map_cons, if_neg hpk, mapGet?]
      rw [find?_key_cons_ne p _ k hpk]
      have hps : ∃ q ∈ ps, q.1 = k := by
        obtain ⟨q, hq, hqk⟩ := hany
        rcases List.mem_cons.mp hq with rfl | hq2
        · exact absurd hqk hpk
        · exact ⟨q, hq2, hqk⟩
      exact ih hps

/-- Lookup after the append-branch of `mapSet`, written key. -/
theorem mapGet?_append_self (m : List (String × String)) (k v : String)
    (hnone : ∀ q ∈ m, q.1 ≠ k) :
    mapGet? (m ++ [(k, v)]) k = some v := by
  induction m with
  | nil =>
    show mapGet? ((k, v) :: []) k = some v
    rw [mapGet?]
    rw [find?_key_cons_eq (k, v) _ k rfl]
    rfl
  | cons p ps ih =>
    have hpk : p.1 ≠ k := hnone p (List.mem_cons_self p ps)
    show mapGet? (p :: (ps ++ [(k, v)])) k = some v
    rw [mapGet?]
    rw [find?_key_cons_ne p _ k hpk]
    exact ih (fun q hq => hnone q (List.mem_cons_of_mem p hq))

/-- Go map semantics of `mapSet`: the written key reads back. -/
theorem mapGet?_mapSet_self (m : List (String × String)) (k v : String) :
    mapGet? (mapSet m k v) k = some v := by
  rw [mapSet]
  split
  · next h =>
    apply mapGet?_update_self m k v
    obtain ⟨q, hq, hqk⟩ := List.any_eq_true.mp h
    exact ⟨q, hq, by simpa using hqk⟩
  · next h =>
    apply mapGet?_append_self m k v
    intro q hq
    have h2 := List.any_eq_false.mp (Bool.eq_false_iff.mpr h) q hq
    simpa using h2

/-- Go map semantics of `mapSet`: other keys are untouched. -/
theorem mapGet?_mapSet_ne (m : List (String × String)) (k v k2 : String)
    (hne : k2 ≠ k) :
    mapGet? (mapSet m k v) k2 = mapGet? m k2 := by
  rw [mapSet]
  split
  · exact mapGet?_update_ne m k v k2 hne
  · exact mapGet?_append_ne m k v k2 hne

/-- `mapSet` never removes a key. -/
theorem mapGet?_mapSet_isSome {m : List (String × String)} {k2 : String}
    (h : (mapGet? m k2).isSome) (k v : String) :
    (mapGet? (mapSet m k v) k2).isSome := by
  by_cases hk : k2 = k
  · subst hk
    rw [mapGet?_mapSet_self]
    rfl
  · rw [mapGet?_mapSet_ne m k v k2 hk]
    exact h

/-- `mapSet` with a lowercase-fixed key preserves lowercase-fixedness of
all keys. -/
theorem keysFixed_mapSet {m : List (String × String)} {k : String} (v : String)
    (hm : KeysFixed m) (hk : goToLower k = k) : KeysFixed (mapSet m k v) := by
  intro p hp
  rw [mapSet] at hp
  split at hp
  · obtain ⟨q, hq, hq2⟩ := List.mem_map.mp hp
    by_cases hqk : q.1 = k
    · rw [if_pos hqk] at hq2
      rw [← hq2]
      exact hk
    · rw [if_neg hqk] at hq2
      rw [← hq2]
      exact hm q hq
  · rcases List.mem_append.mp hp with h | h
    · exact hm p h
    · have : p = (k, v) := by simpa using h
      rw [this]
      exact hk

/-- All keys produced by the metadata-building fold are lowercase-fixed. -/
theorem keysFixed_foldl (tags : List (String × String))
    (acc : List (String × String)) (hacc : KeysFixed acc) :
    KeysFixed (tags.foldl (fun m p => mapSet m (goToLower p.1) p.2) acc) := by
  induction tags generalizing acc with
  | nil => exact hacc
  | cons t ts ih =>
    exact ih _ (keysFixed_mapSet _ hacc (goToLower_fixed t.1))

/-- A key no tag lowercases to is absent from the fold result. -/
theorem mapGet?_foldl_none (tags : List (String × String))
    (acc : List (String × String)) (k : String) (hacc : mapGet? acc k = none)
    (h : ∀ p ∈ tags, goToLower p.1 ≠ k) :
    mapGet? (tags.foldl (fun m p => mapSet m (goToLower p.1) p.2) acc) k = none := by
  induction tags generalizing acc with
  | nil => exact hacc
  | cons t ts ih =>
    apply ih
    · rw [mapGet?_mapSet_ne]
      · exact hacc
      · exact fun he => h t (List.mem_cons_self t ts) he.symm
    · exact fun p hp => h p (List.mem_cons_of_mem _ hp)

/-- `buildMetadata` keys are lowercase-fixed. -/
theorem keysFixed_buildMetadata (tags : List (String × String)) :
    KeysFixed (buildMetadata tags) :=
  keysFixed_foldl tags [] (fun p hp => absurd hp (List.not_mem_nil p))

/-- A key no tag lowercases to is absent from `buildMetadata`. -/
theorem mapGet?_buildMetadata_none (tags : List (String × String)) (k : String)
    (h : ∀ p ∈ tags, goToLower p.1 ≠ k) :
    mapGet? (buildMetadata tags) k = none :=
  mapGet?_foldl_none tags [] k rfl h

/-- The witness run's final state has every goroutine done. -/
theorem allDoneW : AllDone 2 sFinalW := by
  intro i hi
  interval_cases i <;> rfl

/-! ## Claim theorems -/

/-- Claim C1: for every input size, every adapter outcome and every
interleaving of a `processFiles` run that has passed the `wg.Wait()`
barrier, slot `i` of the result slice holds exactly the `Result` the
adapter produced for the i-th input item.  All completion orders are
schedules of the step relation, so the conclusion is independent of the
order in which tasks complete. -/
theorem processFiles_order_preservation
    (adapter : Nat → Result) (N n : Nat) (s : SchedState)
    (hreach : Reachable adapter N n s) (hdone : AllDone n s)
    (i : Nat) (hi : i < n) :
    s.results[i]? = some (some (adapter i)) :=
  ((reachable_inv hreach).slot_done i (hdone i hi)).1

/-- Claim C1 witness: the concrete two-item run with concurrency 1. -/
theorem processFiles_order_preservation_witness :
    sFinalW.results[0]? = some (some (Result.mk (some infoW) none)) :=
  processFiles_order_preservation adapterW 1 2 sFinalW reachW allDoneW 0
    (by decide)

/-- Claim C2: the result slice is allocated with one slot per input item
before any task runs (`make([]Result, len(files))`), its length never
changes, and when the run completes every slot holds a value and has
been written by exactly one index write. -/
theorem processFiles_slot_population
    (adapter : Nat → Result) (N n : Nat) (s : SchedState)
    (hreach : Reachable adapter N n s) (hdone : AllDone n s) :
    (initState n).results = List.replicate n none
    ∧ (initState n).results.length = n
    ∧ s.results.length = n
    ∧ (∀ i, i < n → s.results[i]? = some (some (adapter i)))
    ∧ (∀ i, i < n → s.writes[i]? = some 1) := by
  have hinv := reachable_inv hreach
  refine ⟨rfl, by simp [initState], hinv.results_len, ?_, ?_⟩
  · exact fun i hi => (hinv.slot_done i (hdone i hi)).1
  · exact fun i hi => (hinv.slot_done i (hdone i hi)).2

/-- Claim C2 witness: the concrete two-item run with concurrency 1. -/
theorem processFiles_slot_population_witness :
    (initState 2).results = List.replicate 2 none
    ∧ (initState 2).results.length = 2
    ∧ sFinalW.results.length = 2
    ∧ (∀ i, i < 2 → sFinalW.results[i]? = some (some (adapterW i)))
    ∧ (∀ i, i < 2 → sFinalW.writes[i]? = some 1) :=
  processFiles_slot_population adapterW 1 2 sFinalW reachW allDoneW

/-- Claim C3: a failing item's outcome lands as a failure value in its
own slot, every other item's slot still holds exactly its own adapter
outcome (no failure aborts or alters another item), and the `failCount`
tally of `processFiles` equals the number of failing items. -/
theorem processFiles_failure_isolation
    (adapter : Nat → Result) (N n : Nat) (s : SchedState)
    (hreach : Reachable adapter N n s) (hdone : AllDone n s) :
    (∀ i, i < n → (adapter i).error.isSome →
        s.results[i]? = some (some (adapter i)))
    ∧ (∀ i, i < n → (adapter i).error = none →
        s.results[i]? = some (some (adapter i)))
    ∧ (countSuccessFail (finalResults s)).2
        = (List.range n).countP (fun i => (adapter i).error.isSome) := by
  have hinv := reachable_inv hreach
  refine ⟨?_, ?_, ?_⟩
  · exact fun i hi _ => (hinv.slot_done i (hdone i hi)).1
  · exact fun i hi _ => (hinv.slot_done i (hdone i hi)).1
  · have hres := allDone_results_eq hinv hdone
    rw [finalResults, hres, List.map_map]
    have hmap : ((List.range n).map
        ((fun o => o.getD Result.zero) ∘ fun i => some (adapter i)))
        = (List.range n).map adapter := by
      apply List.map_congr_left
      intro a _
      rfl
    rw [hmap, countSuccessFail_eq]
    show ((List.range n).map adapter).countP (fun r => r.error.isSome) = _
    rw [List.countP_map]
    rfl

/-- Claim C3 witness: the concrete run where item 1 fails and item 0
succeeds. -/
theorem processFiles_failure_isolation_witness :
    (∀ i, i < 2 → (adapterW i).error.isSome →
        sFinalW.results[i]? = some (some (adapterW i)))
    ∧ (∀ i, i < 2 → (adapterW i).error = none →
        sFinalW.results[i]? = some (some (adapterW i)))
    ∧ (countSuccessFail (finalResults sFinalW)).2
        = (List.range 2).countP (fun i => (adapterW i).error.isSome) :=
  processFiles_failure_isolation adapterW 1 2 sFinalW reachW allDoneW

/-- Claim C6: the progress counter starts at 0, never decreases across
any step, always equals the number of finished work items (so it is
incremented exactly once per finished item, success or failure), and is
exactly the input size once every item is done. -/
theorem processFiles_progress_counter (adapter : Nat → Result) (N n : Nat) :
    (initState n).processed = 0
    ∧ (∀ s t : SchedState, Step adapter N s t → s.processed ≤ t.processed)
    ∧ (∀ s : SchedState, Reachable adapter N n s → s.processed = doneCount s)
    ∧ (∀ s : SchedState, Reachable adapter N n s → AllDone n s →
        s.processed = n) := by
  refine ⟨rfl, ?_, ?_, ?_⟩
  · intro s t hstep
    cases hstep with
    | start i hp hroom => exact Nat.le_refl _
    | finish i hp => exact Nat.le_succ _
  · exact fun s hreach => (reachable_inv hreach).processed_eq
  · intro s hreach hdone
    have hinv := reachable_inv hreach
    rw [hinv.processed_eq, allDone_doneCount hinv.phases_len hdone]

/-- Claim C6 witness: the concrete two-item run ends with the counter at
2 after starting at 0. -/
theorem processFiles_progress_counter_witness :
    (initState 2).processed = 0 ∧ sFinalW.processed = 2 :=
  ⟨(processFiles_progress_counter adapterW 1 2).1,
   (processFiles_progress_counter adapterW 1 2).2.2.2 sFinalW reachW allDoneW⟩

/-- Claim C7: with semaphore capacity N ≥ 1, no reachable state of a run
has more than N goroutines holding a semaphore slot, i.e. more than N
ffprobe invocations in flight; admission is the counting-permit `start`
transition, which requires a free slot. -/
theorem processFiles_concurrency_bound
    (adapter : Nat → Result) (N n : Nat) (_hN : 1 ≤ N)
    (s : SchedState) (hreach : Reachable adapter N n s) :
    runningCount s ≤ N :=
  reachable_runningCount_le hreach

/-- Claim C7 witness: the concrete two-item run with capacity 1. -/
theorem processFiles_concurrency_bound_witness : runningCount sFinalW ≤ 1 :=
  processFiles_concurrency_bound adapterW 1 2 (by decide) sFinalW reachW

/-- Claim C5: a requested concurrency above twelve times the CPU count
is reduced to that ceiling and the warning is logged; a request at or
below the ceiling is used unchanged with no warning.  `clampConcurrency`
is a total function — the clamp path is a warning, never a failure. -/
theorem processFiles_concurrency_clamp (numCPU req : Int) :
    (numCPU * 12 < req → clampConcurrency numCPU req = ⟨numCPU * 12, true⟩)
    ∧ (req ≤ numCPU * 12 → clampConcurrency numCPU req = ⟨req, false⟩) := by
  constructor
  · intro h
    simp only [clampConcurrency]
    rw [if_pos h]
  · intro h
    simp only [clampConcurrency]
    rw [if_neg (by omega)]

/-- Claim C5 witness: 8 CPUs, requests 100 (clamped to 96, warned) and
16 (unchanged, no warning). -/
theorem processFiles_concurrency_clamp_witness :
    clampConcurrency 8 100 = ⟨96, true⟩ ∧ clampConcurrency 8 16 = ⟨16, false⟩ := by
  refine ⟨?_, (processFiles_concurrency_clamp 8 16).2 (by decide)⟩
  have h := (processFiles_concurrency_clamp 8 100).1 (by decide)
  rw [h]
  decide

/-- Claim C8: the summary line of the text renderer carries a success
count and a failure count summing to the number of input items, and the
rendered totals are the sums of duration and file size over the
successful entries only — failed entries contribute nothing. -/
theorem outputText_summary_stats (results : List Result) :
    Line.summary (textStats results).successCount
        (results.length - (textStats results).successCount) ∈ renderText results
    ∧ (textStats results).successCount
        + (results.length - (textStats results).successCount) = results.length
    ∧ (textStats results).successCount = (successEntries results).length
    ∧ (textStats results).totalDuration
        = ((successEntries results).map (fun i => i.durationSeconds)).sum
    ∧ (textStats results).totalSize
        = ((successEntries results).map (fun i => i.fileSize)).sum := by
  have h := textStats_eq results
  have hle : (successEntries results).length ≤ results.length :=
    List.length_filterMap_le _ _
  refine ⟨?_, ?_, ?_, ?_, ?_⟩
  · simp [renderText]
  · rw [h]
    show (successEntries results).length
      + (results.length - (successEntries results).length) = results.length
    omega
  · rw [h]
  · rw [h]
  · rw [h]

/-- Claim C4 counterexample: the JSON renderer serializes only the
successful records, so a completed run with exactly one failure renders
an empty JSON document — neither a failure count nor the failure's
description appears in the rendered output, refuting the claim for the
JSON format. -/
theorem outputJSON_drops_failures :
    (countSuccessFail [failResultW]).2 = 1 ∧ outputJSON [failResultW] = [] :=
  ⟨rfl, rfl⟩

/-- Claim C4 (amended): in text format the rendered output reports the
failure count alongside the success count and renders every failure's
description as its own line; in JSON format only the successful records
are serialized and failing entries contribute nothing to the document. -/
theorem output_reports_failures (results : List Result)
    (hwf : ∀ r ∈ results, r.error = none → r.info.isSome) :
    Line.summary (successEntries results).length
        (results.countP (fun r => r.error.isSome)) ∈ renderText results
    ∧ (∀ r ∈ results, ∀ e, r.error = some e →
        Line.errorLine e ∈ renderText results)
    ∧ outputJSON results = outputJSON (results.filter (fun r => r.error.isNone)) := by
  refine ⟨?_, ?_, ?_⟩
  · have hs : (textStats results).successCount = (successEntries results).length := by
      rw [textStats_eq]
    have hsplit := count_error_split results
    have hlen := successEntries_length results hwf
    have hf : results.length - (textStats results).successCount
        = results.countP (fun r => r.error.isSome) := by
      rw [hs, hlen]
      omega
    have hmem : Line.summary (textStats results).successCount
        (results.length - (textStats results).successCount) ∈ renderText results := by
      simp [renderText]
    rw [hf, hs] at hmem
    exact hmem
  · intro r hr e herr
    obtain ⟨rinfo, rerror⟩ := r
    have herr2 : rerror = some e := herr
    subst herr2
    have h2 : Line.errorLine e ∈ results.flatMap renderResultLines :=
      List.mem_flatMap.mpr ⟨⟨rinfo, some e⟩, hr, by simp [renderResultLines]⟩
    simp only [renderText]
    exact List.mem_cons_of_mem _ (List.mem_cons_of_mem _
      (List.mem_cons_of_mem _ (List.mem_cons_of_mem _ h2)))
  · show successEntries results
      = successEntries (results.filter (fun r => r.error.isNone))
    exact (successEntries_filter results).symm

/-- Claim C4 (amended) witness: a run with one success and one failure,
rendered in text format. -/
theorem output_reports_failures_witness :
    Line.summary 1 1 ∈ renderText [Result.mk (some infoW) none, failResultW]
    ∧ Line.errorLine "ffprobe実行エラー: exit status 2"
        ∈ renderText [Result.mk (some infoW) none, failResultW] := by
  have h := output_reports_failures [Result.mk (some infoW) none, failResultW]
    (by decide)
  exact ⟨h.1, h.2.1 failResultW (by decide) "ffprobe実行エラー: exit status 2" rfl⟩

/-- Claim C9: when the format-level bit rate parses to 0 and the selected
audio stream's bit rate parses to a positive value, the returned
`BitRate` is the stream's; in every other case it is the format-level
value. -/
theorem analyze_bitRate_fallback
    (filePath : String) (fileSize : Int) (probeData : FFProbeOutput)
    (info : AudioInfo) (st : FFProbeStream)
    (hst : findAudioStream probeData.streams = some st)
    (hok : analyzeFileWithFFProbe filePath fileSize probeData = .ok info) :
    (parseIntGo probeData.format.bitRate = 0 ∧ 0 < parseIntGo st.bitRate →
        info.bitRate = parseIntGo st.bitRate)
    ∧ (¬(parseIntGo probeData.format.bitRate = 0 ∧ 0 < parseIntGo st.bitRate) →
        info.bitRate = parseIntGo probeData.format.bitRate) := by
  simp only [analyzeFileWithFFProbe, hst, Except.ok.injEq] at hok
  subst hok
  constructor
  · intro h
    show (if parseIntGo probeData.format.bitRate = 0
        ∧ parseIntGo st.bitRate > 0 then parseIntGo st.bitRate
        else parseIntGo probeData.format.bitRate) = parseIntGo st.bitRate
    rw [if_pos h]
  · intro h
    show (if parseIntGo probeData.format.bitRate = 0
        ∧ parseIntGo st.bitRate > 0 then parseIntGo st.bitRate
        else parseIntGo probeData.format.bitRate) = parseIntGo probeData.format.bitRate
    rw [if_neg h]

/-- Claim C9 witness: `probeW` has format bit rate "0" and stream bit
rate "128000"; the produced record carries 128000. -/
theorem analyze_bitRate_fallback_witness :
    analyzeFileWithFFProbe "a.flac" 4096 probeW = Except.ok infoW2
    ∧ infoW2.bitRate = 128000 := by
  refine ⟨by rfl, ?_⟩
  have h := (analyze_bitRate_fallback "a.flac" 4096 probeW infoW2 streamW rfl
    (by rfl)).1 ⟨by rfl, by decide⟩
  rw [h]
  decide

/-- The "title" defaulting step reads back some value for its key. -/
theorem mapDefault_get_self (m : List (String × String)) (k d : String) :
    (mapGet? (if (mapGet? m k).isSome then m else mapSet m k d) k).isSome := by
  split
  · next h => exact h
  · rw [mapGet?_mapSet_self]
    rfl

/-- When the key was absent, the defaulting step installs the default. -/
theorem mapDefault_get_none (m : List (String × String)) (k d : String)
    (h : mapGet? m k = none) :
    mapGet? (if (mapGet? m k).isSome then m else mapSet m k d) k = some d := by
  split
  · next hp =>
    rw [h] at hp
    simp at hp
  · exact mapGet?_mapSet_self m k d

/-- The defaulting step leaves other keys untouched. -/
theorem mapDefault_get_ne (m : List (String × String)) (k d k2 : String)
    (h : k2 ≠ k) :
    mapGet? (if (mapGet? m k).isSome then m else mapSet m k d) k2
      = mapGet? m k2 := by
  split
  · rfl
  · exact mapGet?_mapSet_ne m k d k2 h

/-- The defaulting step preserves lowercase-fixed keys. -/
theorem mapDefault_keysFixed (m : List (String × String)) (k d : String)
    (hm : KeysFixed m) (hk : goToLower k = k) :
    KeysFixed (if (mapGet? m k).isSome then m else mapSet m k d) := by
  split
  · exact hm
  · exact keysFixed_mapSet d hm hk

/-- The defaulting step never removes a key. -/
theorem mapDefault_isSome_mono (m : List (String × String)) (k d k2 : String)
    (h : (mapGet? m k2).isSome) :
    (mapGet? (if (mapGet? m k).isSome then m else mapSet m k d) k2).isSome := by
  split
  · exact h
  · exact mapGet?_mapSet_isSome h k d

/-- The full metadata pipeline: keys lowercase-fixed, the three standard
keys present, and each defaulting as specified when absent from the
tags. -/
theorem metadataWithDefaults_props (tags : List (String × String)) (d : String) :
    KeysFixed (metadataWithDefaults tags d)
    ∧ (mapGet? (metadataWithDefaults tags d) "title").isSome
    ∧ (mapGet? (metadataWithDefaults tags d) "artist").isSome
    ∧ (mapGet? (metadataWithDefaults tags d) "album").isSome
    ∧ ((∀ p ∈ tags, goToLower p.1 ≠ "title") →
        mapGet? (metadataWithDefaults tags d) "title" = some d)
    ∧ ((∀ p ∈ tags, goToLower p.1 ≠ "artist") →
        mapGet? (metadataWithDefaults tags d) "artist" = some "Unknown Artist")
    ∧ ((∀ p ∈ tags, goToLower p.1 ≠ "album") →
        mapGet? (metadataWithDefaults tags d) "album" = some "Unknown Album") := by
  rw [metadataWithDefaults]
  refine ⟨?_, ?_, ?_, ?_, ?_, ?_, ?_⟩
  · apply mapDefault_keysFixed _ _ _ ?_ (by decide)
    apply mapDefault_keysFixed _ _ _ ?_ (by decide)
    apply mapDefault_keysFixed _ _ _ ?_ (by decide)
    exact keysFixed_buildMetadata tags
  · apply mapDefault_isSome_mono
    apply mapDefault_isSome_mono
    exact mapDefault_get_self _ _ _
  · apply mapDefault_isSome_mono
    exact mapDefault_get_self _ _ _
  · exact mapDefault_get_self _ _ _
  · intro h
    rw [mapDefault_get_ne _ _ _ _ (by decide), mapDefault_get_ne _ _ _ _ (by decide)]
    exact mapDefault_get_none _ _ _ (mapGet?_buildMetadata_none tags "title" h)
  · intro h
    rw [mapDefault_get_ne _ _ _ _ (by decide)]
    rw [mapDefault_get_none _ _ _ ?_]
    rw [mapDefault_get_ne _ _ _ _ (by decide)]
    exact mapGet?_buildMetadata_none tags "artist" h
  · intro h
    rw [mapDefault_get_none _ _ _ ?_]
    rw [mapDefault_get_ne _ _ _ _ (by decide), mapDefault_get_ne _ _ _ _ (by decide)]
    exact mapGet?_buildMetadata_none tags "album" h

/-- Claim C10: every key of the returned metadata map is fixed under
lowercasing, the keys "title", "artist" and "album" are always present,
and when absent from the probe tags they default to the file's base name
without extension, "Unknown Artist" and "Unknown Album" respectively. -/
theorem analyze_metadata_defaults
    (filePath : String) (fileSize : Int) (probeData : FFProbeOutput)
    (info : AudioInfo)
    (hok : analyzeFileWithFFProbe filePath fileSize probeData = .ok info) :
    (∀ p ∈ info.metadata, goToLower p.1 = p.1)
    ∧ (mapGet? info.metadata "title").isSome
    ∧ (mapGet? info.metadata "artist").isSome
    ∧ (mapGet? info.metadata "album").isSome
    ∧ ((∀ p ∈ probeData.format.tags, goToLower p.1 ≠ "title") →
        mapGet? info.metadata "title"
          = some (goTrimSuffix (goBase filePath) (goExt (goBase filePath))))
    ∧ ((∀ p ∈ probeData.format.tags, goToLower p.1 ≠ "artist") →
        mapGet? info.metadata "artist" = some "Unknown Artist")
    ∧ ((∀ p ∈ probeData.format.tags, goToLower p.1 ≠ "album") →
        mapGet? info.metadata "album" = some "Unknown Album") := by
  cases hfind : findAudioStream probeData.streams with
  | none =>
    simp [analyzeFileWithFFProbe, hfind] at hok
  | some st =>
    simp only [analyzeFileWithFFProbe, hfind, Except.ok.injEq] at hok
    subst hok
    exact metadataWithDefaults_props probeData.format.tags
      (goTrimSuffix (goBase filePath) (goExt (goBase filePath)))

/-- Claim C10 witness: `probeW` carries no tags, so all three defaults
appear; the title is the base name "a" of "a.flac". -/
theorem analyze_metadata_defaults_witness :
    mapGet? infoW2.metadata "title" = some "a"
    ∧ mapGet? infoW2.metadata "artist" = some "Unknown Artist"
    ∧ mapGet? infoW2.metadata "album" = some "Unknown Album" := by
  have h := analyze_metadata_defaults "a.flac" 4096 probeW infoW2 (by rfl)
  refine ⟨?_, h.2.2.2.2.2.1 (by decide), h.2.2.2.2.2.2 (by decide)⟩
  have ht := h.2.2.2.2.1 (by decide)
  rw [ht]
  decide

end AudioProbe
